import Mathlib

/-!
Verification of the SquadAID workflow engine and entity state machines.

The definitions below are a shallow embedding of the Rust sources:
  - src-tauri/src/main.rs              (graph model, `run_workflow`)
  - src-tauri/src/models/interaction.rs (interaction lifecycle)
  - src-tauri/src/commands/interactions.rs (`update_interaction_status`)
  - src-tauri/src/commands/roles.rs    (`update_role`, `delete_role`)

Modelling conventions:
  - Rust `u32`/`u64` counters are modelled as `Nat` (the claims quantify over
    call sequences far below the wrap point; Rust debug builds panic on
    overflow rather than wrapping, so no wrap semantics is embedded for them).
  - No `f64` arithmetic is embedded: the floating-point metrics accumulator
    `avg_response_time_ms` (models/agent.rs) is outside this development,
    since its IEEE-754 rounding behaviour does not translate to exact
    shallow-embedded arithmetic.
  - RFC3339 timestamp strings produced by the clock are modelled as integer
    milliseconds (`Int`) where the code does arithmetic on them
    (`AgentInteraction`), and as opaque `String` stamps where the code only
    stores them.  The clock value is passed explicitly as a parameter.
  - The Tauri event channel is modelled by returning the list of emitted
    events together with an optional error; the Rust code emits events
    strictly in order and returns `Err` before emitting anything on the
    validation-failure path, which the pair faithfully reflects.
  - `serde_json` `Value` payloads are opaque: of `node.data` only
    `data["name"].as_str()` is consulted by the code, modelled as an
    `Option String` field.
-/

namespace SquadAID

/-! ## Graph model (main.rs) -/

/-- A workflow node: `struct Node { id, node_type, data }`.  Of the arbitrary
JSON `data` the engine reads only `data["name"].as_str()`, modelled here as
the optional `name`. -/
structure Node where
  id : String
  node_type : String
  name : Option String
deriving DecidableEq

/-- A workflow edge: `struct Edge { id, source, target }`. -/
structure Edge where
  id : String
  source : String
  target : String
deriving DecidableEq

/-- `struct GraphState { nodes: Vec<Node>, edges: Vec<Edge> }`. -/
structure GraphState where
  nodes : List Node
  edges : List Edge
deriving DecidableEq

/-- Events emitted on the Tauri window channel: `execution-log` with
`LogPayload { message }` and `execution-finished` with
`FinishedPayload { success }`. -/
inductive Event where
  | log (message : String)
  | finished (success : Bool)
deriving DecidableEq

/-- Whether `id` is the id of a declared node (a key of `node_map` /
`adj_list` in the Rust code). -/
def declaredId (g : GraphState) (id : String) : Bool :=
  g.nodes.any (fun n => n.id = id)

/-- `node_map.get(&id)`: the Rust `HashMap` is filled by one `insert` per
declared node in order, so a duplicated id resolves to the last declaration. -/
def nodeLookup (g : GraphState) (id : String) : Option Node :=
  (g.nodes.filter (fun n => n.id = id)).getLast?

/-- `adj_list.get(&id)` flattened: the successor list of a declared node
holds the targets of the edges with source `id`, in edge declaration order;
an undeclared id has no adjacency entry (`get_mut` misses), modelled as `[]`. -/
def successors (g : GraphState) (id : String) : List String :=
  if declaredId g id then (g.edges.filter (fun e => e.source = id)).map Edge.target
  else []

/-- The start-node candidates: nodes whose id is not in `edge_targets`
(the set of all edge targets), in node declaration order. -/
def startNodes (g : GraphState) : List Node :=
  g.nodes.filter (fun n => !(g.edges.any (fun e => e.target = n.id)))

/-- The `execution-log` message emitted when a node is dequeued. -/
def visitMessage (n : Node) : String :=
  "[EXEC] Visiting node \x27" ++ (n.name.getD ("Unnamed")) ++ "\x27 (Type: "
    ++ n.node_type ++ ")"

/-- The inner successor loop: for each successor in adjacency order, if it is
not yet visited, insert it into the visited set and push it on the back of
the queue.  Returns the new visited set and queue. -/
def pushSuccs (visited queue : List String) : List String → List String × List String
  | [] => (visited, queue)
  | v :: vs =>
    if v ∈ visited then pushSuccs visited queue vs
    else pushSuccs (v :: visited) (queue ++ [v]) vs

/-- The BFS loop of `run_workflow`, fuelled (each iteration pops one queue
element, exactly as the Rust `while let Some(node_id) = queue.pop_front()`).
A dequeued id that is not in `node_map` emits nothing and expands nothing. -/
def bfsAux (g : GraphState) : Nat → List String → List String → List Event
  | 0, _, _ => []
  | _ + 1, [], _ => []
  | fuel + 1, u :: rest, visited =>
    match nodeLookup g u with
    | none => bfsAux g fuel rest visited
    | some n =>
      let p := pushSuccs visited rest (successors g u)
      Event.log (visitMessage n) :: bfsAux g fuel p.2 p.1

/-- Companion to `bfsAux` returning the dequeued declared ids instead of the
events (same recursion structure). -/
def bfsIds (g : GraphState) : Nat → List String → List String → List String
  | 0, _, _ => []
  | _ + 1, [], _ => []
  | fuel + 1, u :: rest, visited =>
    match nodeLookup g u with
    | none => bfsIds g fuel rest visited
    | some _ =>
      let p := pushSuccs visited rest (successors g u)
      u :: bfsIds g fuel p.2 p.1

/-- Companion to `bfsAux` returning the final visited set. -/
def bfsVisited (g : GraphState) : Nat → List String → List String → List String
  | 0, _, visited => visited
  | _ + 1, [], visited => visited
  | fuel + 1, u :: rest, visited =>
    match nodeLookup g u with
    | none => bfsVisited g fuel rest visited
    | some _ =>
      let p := pushSuccs visited rest (successors g u)
      bfsVisited g fuel p.2 p.1

/-- The event a declared id contributes when dequeued. -/
def visitEventOf (g : GraphState) (u : String) : Event :=
  match nodeLookup g u with
  | some n => Event.log (visitMessage n)
  | none => Event.finished false

/-- `run_workflow` (main.rs lines 94-195), as a pure function from the parsed
graph to the emitted event sequence and the optional error returned to the
caller.  The fuel `nodes + edges + 1` strictly bounds the number of loop
iterations (each enqueued id is enqueued once: the start node plus at most
one id per edge target), as proved below. -/
def run_workflow (g : GraphState) : List Event × Option String :=
  if g.nodes.isEmpty then
    ([Event.log ("[INFO] Workflow is empty. Nothing to run."), Event.finished true], none)
  else
    match startNodes g with
    | [s] =>
      let fuel := g.nodes.length + g.edges.length + 1
      (bfsAux g fuel [s.id] [s.id] ++
        [Event.log ("[INFO] Workflow traversal complete."), Event.finished true], none)
    | starts =>
      ([], some ("Workflow must have exactly one start node (a node with no incoming edges). Found "
        ++ toString starts.length ++ "."))

/-! ### Spec-side notions for the graph claims -/

/-- Reachability along the code's adjacency structure: one step goes from a
declared node id to any target of one of its edges. -/
def Reaches (g : GraphState) : String → String → Prop :=
  Relation.ReflTransGen (fun a b => b ∈ successors g a)

/-- Literal, spec-worded reachability: following edges forward as raw
id-pairs, with no requirement that an edge's source be a declared node. -/
def RawReach (g : GraphState) : String → String → Prop :=
  Relation.ReflTransGen (fun a b => ∃ e ∈ g.edges, e.source = a ∧ e.target = b)

/-- Whether an event is a `Visiting` log event, recognised by its message
header. -/
def isVisiting (e : Event) : Bool :=
  match e with
  | Event.log m => List.isPrefixOf ("[EXEC] Visiting").data m.data
  | Event.finished _ => false

/-- The number of `Visiting` log events in an event sequence. -/
def countVisits (events : List Event) : Nat :=
  events.countP isVisiting

/-- The multiset of all edge targets, in declaration order. -/
def targetIds (g : GraphState) : List String := g.edges.map Edge.target

/-- The loop potential: queue length plus the number of distinct edge targets
not yet visited.  Every BFS iteration decreases it by exactly one, which
bounds the iteration count and justifies the fuel used by `run_workflow`. -/
def bfsPotential (g : GraphState) (queue visited : List String) : Nat :=
  queue.length + ((targetIds g).toFinset \ visited.toFinset).card

/-! ## Interaction model (models/interaction.rs) -/

/-- `enum InteractionType`. -/
inductive InteractionType where
  | Message
  | TaskAssignment
  | TaskCompletion
  | ApprovalRequest
  | ApprovalGranted
  | ApprovalDenied
  | CodeReview
  | Feedback
  | StatusUpdate
  | Error
  | System
deriving DecidableEq

/-- `enum InteractionStatus`. -/
inductive InteractionStatus where
  | Pending
  | InProgress
  | Completed
  | Failed
  | Cancelled
deriving DecidableEq

/-- `enum InteractionPriority`. -/
inductive InteractionPriority where
  | Low
  | Normal
  | High
  | Urgent
deriving DecidableEq

/-- `struct CodeBlock`. -/
structure CodeBlock where
  language : String
  code : String
  filename : Option String
  start_line : Option Nat
  end_line : Option Nat
deriving DecidableEq

/-- `struct InteractionContent`; the structured `data` payload is opaque and
modelled as its serialized form. -/
structure InteractionContent where
  message : String
  data : Option String
  attachments : List String
  code_blocks : List CodeBlock
deriving DecidableEq

/-- `struct AgentInteraction`.  The RFC3339 timestamps `created_at` and
`completed_at` are modelled as integer milliseconds, matching the
`timestamp_millis()` arithmetic `complete()` performs on them;
`duration_ms: Option<u64>` is a `Nat`. -/
structure AgentInteraction where
  id : String
  workflow_id : String
  initiator_agent_id : String
  target_agent_ids : List String
  interaction_type : InteractionType
  status : InteractionStatus
  priority : InteractionPriority
  content : InteractionContent
  related_task_id : Option String
  parent_interaction_id : Option String
  duration_ms : Option Nat
  created_at : Int
  completed_at : Option Int
deriving DecidableEq

/-- `AgentInteraction::complete()` (interaction.rs lines 190-199): set status
to Completed, stamp the completion time, and store
`(now - created).timestamp_millis() as u64` (the `i64` difference cast to
`u64`, hence taken modulo `2^64`).  `now` is the clock reading for the call;
parsing the stored creation stamp always succeeds in this model, as it does
for every interaction the code creates. -/
def AgentInteraction.complete (i : AgentInteraction) (now : Int) : AgentInteraction :=
  { i with
    status := InteractionStatus.Completed
    completed_at := some now
    duration_ms := some (((now - i.created_at) % (2 : Int) ^ 64).toNat) }

/-- `AgentInteraction::fail(error_message)` (interaction.rs lines 202-206):
set status to Failed, stamp the completion time, and append the reason to the
message; `duration_ms` is not touched. -/
def AgentInteraction.fail (i : AgentInteraction) (error_message : String)
    (now : Int) : AgentInteraction :=
  { i with
    status := InteractionStatus.Failed
    completed_at := some now
    content :=
      { i.content with
        message := i.content.message ++ "\n\nError: " ++ error_message } }

/-! ## Interaction persistence commands (commands/interactions.rs) -/

/-- The serde serialization of an `InteractionStatus` (kebab-case, quoted),
as written into the `status` column. -/
def statusJson (s : InteractionStatus) : String :=
  match s with
  | InteractionStatus.Pending => "\"pending\""
  | InteractionStatus.InProgress => "\"in-progress\""
  | InteractionStatus.Completed => "\"completed\""
  | InteractionStatus.Failed => "\"failed\""
  | InteractionStatus.Cancelled => "\"cancelled\""

/-- A row of the `interactions` table (flattened storage form; serialized
blobs are opaque strings, timestamps the stored strings). -/
structure InteractionRow where
  id : String
  workflow_id : String
  initiator_agent_id : String
  target_agent_ids_json : String
  interaction_type : String
  status : String
  priority : String
  content_json : String
  related_task_id : Option String
  parent_interaction_id : Option String
  duration_ms : Option Int
  created_at : String
  completed_at : Option String
deriving DecidableEq

/-- `update_interaction_status` (commands/interactions.rs lines 102-126):
serialize the requested status; stamp `completed_at` with the clock for a
terminal target and with NULL otherwise; then
`UPDATE interactions SET status = ?, completed_at = ? WHERE id = ?`,
which rewrites both columns of every row whose id matches. -/
def update_interaction_status (table : List InteractionRow) (id : String)
    (status : InteractionStatus) (now : String) : List InteractionRow :=
  let status_json := statusJson status
  let completed_at :=
    match status with
    | InteractionStatus.Completed => some now
    | InteractionStatus.Failed => some now
    | InteractionStatus.Cancelled => some now
    | _ => none
  table.map (fun r =>
    if r.id = id then { r with status := status_json, completed_at := completed_at }
    else r)

/-! ## Role persistence commands (commands/roles.rs) -/

/-- A row of the `roles` table (`struct RoleRow`): the flattened storage form
of a role, serialized blobs as opaque strings. -/
structure RoleRow where
  id : String
  name : String
  description : String
  icon : String
  color : String
  capabilities_json : String
  system_prompt : String
  tools_json : String
  constraints_json : String
  is_built_in : Bool
  version : String
  tags_json : String
  created_at : String
  updated_at : String
deriving DecidableEq

/-- The stored `is_built_in` flag for an id:
`SELECT is_built_in FROM roles WHERE id = ?` fetched optionally, defaulting
to `false` when no row matches (`.flatten().unwrap_or(false)`). -/
def storedBuiltIn (table : List RoleRow) (id : String) : Bool :=
  ((table.find? (fun r => r.id = id)).map (fun r => r.is_built_in)).getD false

/-- `update_role` (commands/roles.rs lines 94-141), on the submitted role's
flattened row: reject if the stored record is flagged built-in, otherwise
rewrite every payload column of the matching rows (`is_built_in` and
`created_at` are not in the UPDATE's column list) and stamp `updated_at`
from the clock.  Returns the table after the call and the optional error. -/
def update_role (table : List RoleRow) (role : RoleRow) (now : String) :
    List RoleRow × Option String :=
  if storedBuiltIn table role.id then
    (table, some ("Cannot modify built-in roles"))
  else
    (table.map (fun r =>
      if r.id = role.id then
        { r with
          name := role.name
          description := role.description
          icon := role.icon
          color := role.color
          capabilities_json := role.capabilities_json
          system_prompt := role.system_prompt
          tools_json := role.tools_json
          constraints_json := role.constraints_json
          version := role.version
          tags_json := role.tags_json
          updated_at := now }
      else r), none)

/-- `delete_role` (commands/roles.rs lines 144-167): reject if the stored
record is flagged built-in, otherwise `DELETE FROM roles WHERE id = ?`. -/
def delete_role (table : List RoleRow) (id : String) :
    List RoleRow × Option String :=
  if storedBuiltIn table id then
    (table, some ("Cannot delete built-in roles"))
  else
    (table.filter (fun r => ¬(r.id = id)), none)

/-! ## Concrete instances used by witnesses and counterexamples -/

/-- Node A of the two-node chain graph. -/
def wNodeA : Node := ⟨("A"), ("agent"), some ("Alpha")⟩

/-- Node B of the two-node chain graph. -/
def wNodeB : Node := ⟨("B"), ("agent"), some ("Beta")⟩

/-- The two-node chain graph: nodes `[A, B]`, edge `A → B`. -/
def wChain : GraphState := ⟨[wNodeA, wNodeB], [⟨("e1"), ("A"), ("B")⟩]⟩

/-- Two isolated nodes and no edges: two start-node candidates. -/
def wTwoStarts : GraphState := ⟨[wNodeA, wNodeB], []⟩

/-- Graph whose only edge hops through the undeclared id `X`:
nodes `[A, B]`, edges `A → X` and `X → B`. -/
def wHopGraph : GraphState :=
  ⟨[wNodeA, wNodeB], [⟨("e1"), ("A"), ("X")⟩, ⟨("e2"), ("X"), ("B")⟩]⟩

/-- Graph whose only edge has the undeclared source `X`: nodes `[A]`,
edge `X → A`. -/
def wOrphanEdgeGraph : GraphState := ⟨[⟨("A"), ("agent"), none⟩], [⟨("e1"), ("X"), ("A")⟩]⟩

/-- A sample interaction created at 100 ms with no completion data. -/
def wInteraction : AgentInteraction :=
  ⟨("i1"), ("wf1"), ("agA"), [("agB")], InteractionType.Message,
    InteractionStatus.Pending, InteractionPriority.Normal,
    ⟨("hello"), none, [], []⟩, none, none, none, 100, none⟩

/-- A stored interaction row that already has a completion timestamp. -/
def wDoneRow : InteractionRow :=
  ⟨("i1"), ("wf1"), ("agA"), ("[]"), ("\"message\""), ("\"completed\""),
    ("\"normal\""), ("...."), none, none, some 42, ("T0"), some ("T1")⟩

/-- The row `wDoneRow` after a Failed status update stamped at clock T9. -/
def wDoneRowFailed : InteractionRow :=
  { wDoneRow with status := statusJson InteractionStatus.Failed, completed_at := some ("T9") }

/-- A stored role row flagged built-in. -/
def wBuiltInRole : RoleRow :=
  ⟨("r1"), ("Architect"), ("d"), ("Person"), ("#fff"), ("[]"), ("p"),
    ("[]"), ("cs"), true, ("1.0.0"), ("[]"), ("T0"), ("T0")⟩

/-! ## C1: BFS visits exactly the reachable nodes, once each

The helper lemmas below characterise the BFS loop by induction on the fuel,
using the potential `bfsPotential` (which every iteration strictly
decreases) to show the fuel chosen by `run_workflow` never runs out. -/

theorem successors_subset_targets {g : GraphState} {u v : String}
    (h : v ∈ successors g u) : v ∈ targetIds g := by
  unfold successors at h
  by_cases hd : declaredId g u
  · rw [if_pos hd] at h
    obtain ⟨e, he, rfl⟩ := List.mem_map.mp h
    exact List.mem_map.mpr ⟨e, (List.mem_filter.mp he).1, rfl⟩
  · rw [if_neg hd] at h
    cases h

theorem successors_undeclared {g : GraphState} {u : String}
    (h : declaredId g u = false) : successors g u = [] := by
  unfold successors
  rw [if_neg (by simp [h])]

theorem nodeLookup_none_iff (g : GraphState) (u : String) :
    nodeLookup g u = none ↔ declaredId g u = false := by
  unfold nodeLookup declaredId
  rw [List.getLast?_eq_none_iff, List.filter_eq_nil_iff]
  simp

theorem nodeLookup_some_declared {g : GraphState} {u : String} {n : Node}
    (h : nodeLookup g u = some n) : declaredId g u = true := by
  by_contra hfalse
  rw [(nodeLookup_none_iff g u).mpr (by simpa using hfalse)] at h
  cases h

theorem pushSuccs_spec (l : List String) : ∀ visited queue : List String,
    ∃ new : List String,
      (pushSuccs visited queue l).2 = queue ++ new ∧
      new.Nodup ∧
      (∀ x ∈ new, x ∈ l ∧ x ∉ visited) ∧
      (∀ x, x ∈ (pushSuccs visited queue l).1 ↔ x ∈ new ∨ x ∈ visited) ∧
      (∀ x ∈ l, x ∈ (pushSuccs visited queue l).1) ∧
      (visited.Nodup → (pushSuccs visited queue l).1.Nodup) := by
  induction l with
  | nil =>
    intro vis q
    refine ⟨[], by simp [pushSuccs], List.nodup_nil, by simp, by simp [pushSuccs], by simp, ?_⟩
    intro h
    simpa [pushSuccs] using h
  | cons v vs ih =>
    intro vis q
    by_cases hv : v ∈ vis
    · obtain ⟨new, h1, h2, h3, h4, h5, h6⟩ := ih vis q
      have hstep : pushSuccs vis q (v :: vs) = pushSuccs vis q vs := by
        simp [pushSuccs, hv]
      refine ⟨new, by rw [hstep]; exact h1, h2, ?_, by rw [hstep]; exact h4, ?_,
        by rw [hstep]; exact h6⟩
      · intro x hx
        obtain ⟨hl, hnv⟩ := h3 x hx
        exact ⟨List.mem_cons_of_mem _ hl, hnv⟩
      · intro x hx
        rw [hstep]
        rcases List.mem_cons.mp hx with rfl | hx'
        · exact (h4 x).mpr (Or.inr hv)
        · exact h5 x hx'
    · obtain ⟨new, h1, h2, h3, h4, h5, h6⟩ := ih (v :: vis) (q ++ [v])
      have hstep : pushSuccs vis q (v :: vs) = pushSuccs (v :: vis) (q ++ [v]) vs := by
        simp [pushSuccs, hv]
      refine ⟨v :: new, ?_, ?_, ?_, ?_, ?_, ?_⟩
      · rw [hstep, h1, List.append_assoc]
        rfl
      · refine List.nodup_cons.mpr ⟨?_, h2⟩
        intro hvnew
        exact (h3 v hvnew).2 (List.mem_cons_self v vis)
      · intro x hx
        rcases List.mem_cons.mp hx with rfl | hx'
        · exact ⟨List.mem_cons_self _ _, hv⟩
        · obtain ⟨hl, hnv⟩ := h3 x hx'
          exact ⟨List.mem_cons_of_mem _ hl, fun hxv => hnv (List.mem_cons_of_mem _ hxv)⟩
      · intro x
        rw [hstep, h4 x]
        constructor
        · rintro (hx | hx)
          · exact Or.inl (List.mem_cons_of_mem _ hx)
          · rcases List.mem_cons.mp hx with rfl | hx'
            · exact Or.inl (List.mem_cons_self _ _)
            · exact Or.inr hx'
        · rintro (hx | hx)
          · rcases List.mem_cons.mp hx with rfl | hx'
            · exact Or.inr (List.mem_cons_self _ _)
            · exact Or.inl hx'
          · exact Or.inr (List.mem_cons_of_mem _ hx)
      · intro x hx
        rw [hstep]
        rcases List.mem_cons.mp hx with rfl | hx'
        · exact (h4 x).mpr (Or.inr (List.mem_cons_self _ _))
        · exact h5 x hx'
      · intro hnd
        rw [hstep]
        exact h6 (List.nodup_cons.mpr ⟨hv, hnd⟩)

theorem bfsAux_eq_map (g : GraphState) : ∀ fuel queue visited,
    bfsAux g fuel queue visited = (bfsIds g fuel queue visited).map (visitEventOf g) := by
  intro fuel
  induction fuel with
  | zero => intro q vis; rfl
  | succ n ih =>
    intro q vis
    cases q with
    | nil => rfl
    | cons u rest =>
      cases hlook : nodeLookup g u with
      | none => simp [bfsAux, bfsIds, hlook, ih]
      | some nd => simp [bfsAux, bfsIds, hlook, ih, visitEventOf]

theorem bfs_spec (g : GraphState) : ∀ (fuel : Nat) (queue visited : List String),
    bfsPotential g queue visited ≤ fuel →
    queue.Nodup → visited.Nodup →
    (∀ x ∈ queue, x ∈ visited) →
    (∀ x ∈ visited, x ∉ queue → ∀ v ∈ successors g x, v ∈ visited) →
    (bfsIds g fuel queue visited).Nodup ∧
    (∀ u, u ∈ bfsIds g fuel queue visited ↔
        declaredId g u = true ∧ u ∈ bfsVisited g fuel queue visited ∧
          (u ∈ queue ∨ u ∉ visited)) ∧
    (∀ x ∈ visited, x ∈ bfsVisited g fuel queue visited) ∧
    (bfsVisited g fuel queue visited).Nodup ∧
    (∀ x ∈ bfsVisited g fuel queue visited, ∀ v ∈ successors g x,
        v ∈ bfsVisited g fuel queue visited) ∧
    (∀ x ∈ bfsVisited g fuel queue visited, ∃ r ∈ visited, Reaches g r x) := by
  intro fuel
  induction fuel with
  | zero =>
    intro q vis hP hqn hvn hqv hcl
    have hq : q = [] := by
      have hlen : q.length = 0 := by
        unfold bfsPotential at hP
        omega
      exact List.length_eq_zero.mp hlen
    subst hq
    refine ⟨List.nodup_nil, ?_, ?_, hvn, ?_, ?_⟩
    · intro u
      show u ∈ ([] : List String) ↔ _
      constructor
      · intro h
        cases h
      · rintro ⟨_, hf, hq | hnv⟩
        · cases hq
        · exact absurd hf hnv
    · intro x hx
      exact hx
    · intro x hx v hv
      exact hcl x hx (by intro h; cases h) v hv
    · intro x hx
      exact ⟨x, hx, Relation.ReflTransGen.refl⟩
  | succ n ih =>
    intro q vis hP hqn hvn hqv hcl
    cases q with
    | nil =>
      refine ⟨List.nodup_nil, ?_, ?_, hvn, ?_, ?_⟩
      · intro u
        show u ∈ ([] : List String) ↔ _
        constructor
        · intro h
          cases h
        · rintro ⟨_, hf, hq | hnv⟩
          · cases hq
          · exact absurd hf hnv
      · intro x hx
        exact hx
      · intro x hx v hv
        exact hcl x hx (by intro h; cases h) v hv
      · intro x hx
        exact ⟨x, hx, Relation.ReflTransGen.refl⟩
    | cons u rest =>
      have hu_vis : u ∈ vis := hqv u (List.mem_cons_self u rest)
      have hunotrest : u ∉ rest := (List.nodup_cons.mp hqn).1
      have hrestn : rest.Nodup := (List.nodup_cons.mp hqn).2
      cases hlook : nodeLookup g u with
      | none =>
        have hdecl : declaredId g u = false := (nodeLookup_none_iff g u).mp hlook
        have hids : bfsIds g (n + 1) (u :: rest) vis = bfsIds g n rest vis := by
          simp [bfsIds, hlook]
        have hviseq : bfsVisited g (n + 1) (u :: rest) vis = bfsVisited g n rest vis := by
          simp [bfsVisited, hlook]
        have hqv' : ∀ x ∈ rest, x ∈ vis := fun x hx => hqv x (List.mem_cons_of_mem _ hx)
        have hcl' : ∀ x ∈ vis, x ∉ rest → ∀ v ∈ successors g x, v ∈ vis := by
          intro x hx hxr v hv
          by_cases hxu : x = u
          · subst hxu
            rw [successors_undeclared hdecl] at hv
            cases hv
          · exact hcl x hx (by simp [List.mem_cons, hxu, hxr]) v hv
        have hP' : bfsPotential g rest vis ≤ n := by
          unfold bfsPotential at hP ⊢
          rw [List.length_cons] at hP
          omega
        obtain ⟨o1, o2, o3, o4, o5, o6⟩ := ih rest vis hP' hrestn hvn hqv' hcl'
        rw [hids, hviseq]
        refine ⟨o1, ?_, o3, o4, o5, o6⟩
        intro w
        rw [o2 w]
        by_cases hwu : w = u
        · subst hwu
          simp [hdecl]
        · constructor
          · rintro ⟨hd, hf, hq | hnv⟩
            · exact ⟨hd, hf, Or.inl (List.mem_cons_of_mem _ hq)⟩
            · exact ⟨hd, hf, Or.inr hnv⟩
          · rintro ⟨hd, hf, hq | hnv⟩
            · rcases List.mem_cons.mp hq with rfl | hq'
              · exact absurd rfl hwu
              · exact ⟨hd, hf, Or.inl hq'⟩
            · exact ⟨hd, hf, Or.inr hnv⟩
      | some nd =>
        have hdecl : declaredId g u = true := nodeLookup_some_declared hlook
        obtain ⟨new, p1, p2, p3, p4, p5, p6⟩ := pushSuccs_spec (successors g u) vis rest
        have hids : bfsIds g (n + 1) (u :: rest) vis
            = u :: bfsIds g n (pushSuccs vis rest (successors g u)).2
                (pushSuccs vis rest (successors g u)).1 := by
          simp [bfsIds, hlook]
        have hviseq : bfsVisited g (n + 1) (u :: rest) vis
            = bfsVisited g n (pushSuccs vis rest (successors g u)).2
                (pushSuccs vis rest (successors g u)).1 := by
          simp [bfsVisited, hlook]
        have hnew_not_vis : ∀ x ∈ new, x ∉ vis := fun x hx => (p3 x hx).2
        have hnew_succs : ∀ x ∈ new, x ∈ successors g u := fun x hx => (p3 x hx).1
        have hq2n : (pushSuccs vis rest (successors g u)).2.Nodup := by
          rw [p1]
          exact hrestn.append p2
            (fun x hx hx2 => hnew_not_vis x hx2 (hqv x (List.mem_cons_of_mem _ hx)))
        have hvis2n : (pushSuccs vis rest (successors g u)).1.Nodup := p6 hvn
        have hq2v : ∀ x ∈ (pushSuccs vis rest (successors g u)).2,
            x ∈ (pushSuccs vis rest (successors g u)).1 := by
          intro x hx
          rw [p1] at hx
          rcases List.mem_append.mp hx with hx' | hx'
          · exact (p4 x).mpr (Or.inr (hqv x (List.mem_cons_of_mem _ hx')))
          · exact (p4 x).mpr (Or.inl hx')
        have hcl2 : ∀ x ∈ (pushSuccs vis rest (successors g u)).1,
            x ∉ (pushSuccs vis rest (successors g u)).2 →
            ∀ v ∈ successors g x, v ∈ (pushSuccs vis rest (successors g u)).1 := by
          intro x hx hxq v hv
          rcases (p4 x).mp hx with hxnew | hxvis
          · exact absurd (p1 ▸ List.mem_append.mpr (Or.inr hxnew)) hxq
          · by_cases hxu : x = u
            · subst hxu
              exact p5 v hv
            · have hxr : x ∉ rest := fun hr => hxq (p1 ▸ List.mem_append.mpr (Or.inl hr))
              exact (p4 v).mpr (Or.inr (hcl x hxvis (by simp [List.mem_cons, hxu, hxr]) v hv))
        have hsub : new.toFinset ⊆ (targetIds g).toFinset \ vis.toFinset := by
          intro x hx
          rw [List.mem_toFinset] at hx
          rw [Finset.mem_sdiff, List.mem_toFinset, List.mem_toFinset]
          exact ⟨successors_subset_targets (hnew_succs x hx), hnew_not_vis x hx⟩
        have hvis2F : (pushSuccs vis rest (successors g u)).1.toFinset
            = new.toFinset ∪ vis.toFinset := by
          ext x
          simp only [List.mem_toFinset, Finset.mem_union]
          exact p4 x
        have hge : new.length ≤ ((targetIds g).toFinset \ vis.toFinset).card := by
          calc new.length = new.toFinset.card := (List.toFinset_card_of_nodup p2).symm
            _ ≤ _ := Finset.card_le_card hsub
        have hdec : ((targetIds g).toFinset \ (pushSuccs vis rest (successors g u)).1.toFinset).card
            = ((targetIds g).toFinset \ vis.toFinset).card - new.length := by
          rw [hvis2F]
          rw [show (targetIds g).toFinset \ (new.toFinset ∪ vis.toFinset)
              = ((targetIds g).toFinset \ vis.toFinset) \ new.toFinset from by
            ext x
            simp only [Finset.mem_sdiff, Finset.mem_union]
            tauto]
          rw [Finset.card_sdiff hsub, List.toFinset_card_of_nodup p2]
        have hP2 : bfsPotential g (pushSuccs vis rest (successors g u)).2
            (pushSuccs vis rest (successors g u)).1 ≤ n := by
          unfold bfsPotential at hP ⊢
          rw [p1, List.length_append, hdec]
          rw [List.length_cons] at hP
          omega
        obtain ⟨o1, o2, o3, o4, o5, o6⟩ := ih _ _ hP2 hq2n hvis2n hq2v hcl2
        rw [hids, hviseq]
        refine ⟨?_, ?_, ?_, o4, o5, ?_⟩
        · refine List.nodup_cons.mpr ⟨?_, o1⟩
          intro hu_out
          obtain ⟨_, _, hq_or⟩ := (o2 u).mp hu_out
          rcases hq_or with hq | hnv
          · rw [p1] at hq
            rcases List.mem_append.mp hq with h | h
            · exact hunotrest h
            · exact hnew_not_vis u h hu_vis
          · exact hnv ((p4 u).mpr (Or.inr hu_vis))
        · intro w
          constructor
          · intro hw
            rcases List.mem_cons.mp hw with rfl | hw'
            · exact ⟨hdecl, o3 _ ((p4 w).mpr (Or.inr hu_vis)),
                Or.inl (List.mem_cons_self _ _)⟩
            · obtain ⟨hd, hf, hq_or⟩ := (o2 w).mp hw'
              refine ⟨hd, hf, ?_⟩
              rcases hq_or with hq | hnv
              · rw [p1] at hq
                rcases List.mem_append.mp hq with h | h
                · exact Or.inl (List.mem_cons_of_mem _ h)
                · exact Or.inr (hnew_not_vis w h)
              · exact Or.inr (fun hwv => hnv ((p4 w).mpr (Or.inr hwv)))
          · rintro ⟨hd, hf, hq_or⟩
            by_cases hwu : w = u
            · subst hwu
              exact List.mem_cons_self _ _
            · refine List.mem_cons_of_mem _ ((o2 w).mpr ⟨hd, hf, ?_⟩)
              rcases hq_or with hq | hnv
              · rcases List.mem_cons.mp hq with rfl | hq'
                · exact absurd rfl hwu
                · exact Or.inl (p1 ▸ List.mem_append.mpr (Or.inl hq'))
              · by_cases hwnew : w ∈ new
                · exact Or.inl (p1 ▸ List.mem_append.mpr (Or.inr hwnew))
                · refine Or.inr (fun hwv2 => ?_)
                  rcases (p4 w).mp hwv2 with h | h
                  · exact hwnew h
                  · exact hnv h
        · intro x hx
          exact o3 x ((p4 x).mpr (Or.inr hx))
        · intro x hx
          obtain ⟨r, hr, hreach⟩ := o6 x hx
          rcases (p4 r).mp hr with hrnew | hrvis
          · exact ⟨u, hu_vis, Relation.ReflTransGen.head (hnew_succs r hrnew) hreach⟩
          · exact ⟨r, hrvis, hreach⟩

theorem isVisiting_visitMessage (n : Node) :
    isVisiting (Event.log (visitMessage n)) = true := by
  show List.isPrefixOf ("[EXEC] Visiting").data (visitMessage n).data = true
  rw [List.isPrefixOf_iff_prefix]
  refine ⟨(" node \x27").data ++ ((n.name.getD ("Unnamed")).data ++
    (("\x27 (Type: ").data ++ ((n.node_type).data ++ (")").data))), ?_⟩
  simp only [visitMessage, String.data_append, List.append_assoc, List.cons_append,
    List.nil_append]

theorem isVisiting_visitEventOf {g : GraphState} {u : String}
    (h : declaredId g u = true) : isVisiting (visitEventOf g u) = true := by
  cases hlook : nodeLookup g u with
  | none => rw [(nodeLookup_none_iff g u).mp hlook] at h; cases h
  | some n =>
    have : visitEventOf g u = Event.log (visitMessage n) := by
      simp [visitEventOf, hlook]
    rw [this]
    exact isVisiting_visitMessage n

/-- C1 (amended): for a graph with exactly one start node and duplicate-free
node ids, `run_workflow` succeeds and its event sequence consists of exactly
one `Visiting` log event per node reachable from the start node by following
edges whose source is a declared node, each such node exactly once, followed
by the traversal-complete log and the success event; the number of `Visiting`
events equals the number of such reachable nodes. -/
theorem run_workflow_visits_reachable (g : GraphState) (s : Node)
    (h1 : startNodes g = [s]) (h2 : (g.nodes.map Node.id).Nodup) :
    ∃ ids : List String,
      run_workflow g =
        (ids.map (visitEventOf g) ++
          [Event.log ("[INFO] Workflow traversal complete."), Event.finished true], none) ∧
      ids.Nodup ∧
      (∀ u, u ∈ ids ↔ declaredId g u = true ∧ Reaches g s.id u) ∧
      countVisits (run_workflow g).1 = ids.length ∧
      (g.nodes.filter (fun n => n.id ∈ ids)).length = ids.length := by
  have hsmem : s ∈ g.nodes := by
    have : s ∈ startNodes g := by rw [h1]; exact List.mem_singleton_self s
    exact (List.mem_filter.mp this).1
  have hne : g.nodes ≠ [] := List.ne_nil_of_mem hsmem
  have hrun : run_workflow g =
      (bfsAux g (g.nodes.length + g.edges.length + 1) [s.id] [s.id] ++
        [Event.log ("[INFO] Workflow traversal complete."), Event.finished true], none) := by
    unfold run_workflow
    rw [if_neg (by simpa [List.isEmpty_iff] using hne), h1]
  have hPinit : bfsPotential g [s.id] [s.id] ≤ g.nodes.length + g.edges.length + 1 := by
    unfold bfsPotential
    have hcard : ((targetIds g).toFinset \ [s.id].toFinset).card ≤ g.edges.length := by
      calc ((targetIds g).toFinset \ [s.id].toFinset).card
          ≤ (targetIds g).toFinset.card := Finset.card_le_card Finset.sdiff_subset
        _ ≤ (targetIds g).length := List.toFinset_card_le (targetIds g)
        _ = g.edges.length := by simp [targetIds]
    simp only [List.length_singleton]
    omega
  obtain ⟨o1, o2, o3, o4, o5, o6⟩ := bfs_spec g (g.nodes.length + g.edges.length + 1)
    [s.id] [s.id] hPinit (List.nodup_singleton _) (List.nodup_singleton _)
    (fun x hx => hx) (fun x hx hnx => absurd hx hnx)
  have hfin : ∀ v, v ∈ bfsVisited g (g.nodes.length + g.edges.length + 1) [s.id] [s.id]
      ↔ Reaches g s.id v := by
    intro v
    constructor
    · intro hv
      obtain ⟨r, hr, hreach⟩ := o6 v hv
      rw [List.mem_singleton] at hr
      subst hr
      exact hreach
    · intro hreach
      induction hreach with
      | refl => exact o3 s.id (List.mem_singleton_self _)
      | tail hpre hstep ih => exact o5 _ ih _ hstep
  refine ⟨bfsIds g (g.nodes.length + g.edges.length + 1) [s.id] [s.id],
    by rw [hrun, bfsAux_eq_map], o1, ?_, ?_, ?_⟩
  · intro u
    rw [o2 u]
    constructor
    · rintro ⟨hd, hf, _⟩
      exact ⟨hd, (hfin u).mp hf⟩
    · rintro ⟨hd, hr⟩
      refine ⟨hd, (hfin u).mpr hr, ?_⟩
      by_cases h : u ∈ [s.id]
      · exact Or.inl h
      · exact Or.inr h
  · rw [hrun]
    show countVisits
        (bfsAux g (g.nodes.length + g.edges.length + 1) [s.id] [s.id] ++
          [Event.log ("[INFO] Workflow traversal complete."), Event.finished true])
        = _
    rw [bfsAux_eq_map]
    unfold countVisits
    rw [List.countP_append, List.countP_map]
    rw [show List.countP isVisiting
        [Event.log ("[INFO] Workflow traversal complete."), Event.finished true] = 0 from by decide]
    rw [Nat.add_zero]
    apply List.countP_eq_length.mpr
    intro u hu
    have hd : declaredId g u = true := ((o2 u).mp hu).1
    show isVisiting (visitEventOf g u) = true
    exact isVisiting_visitEventOf hd
  · have hids_sub : ∀ u ∈ bfsIds g (g.nodes.length + g.edges.length + 1) [s.id] [s.id],
        u ∈ g.nodes.map Node.id := by
      intro u hu
      have hd : declaredId g u = true := ((o2 u).mp hu).1
      unfold declaredId at hd
      rw [List.any_eq_true] at hd
      obtain ⟨n, hn, hnid⟩ := hd
      rw [decide_eq_true_eq] at hnid
      exact List.mem_map.mpr ⟨n, hn, hnid⟩
    have hmapf : ((g.nodes.map Node.id).filter
          (fun x => x ∈ bfsIds g (g.nodes.length + g.edges.length + 1) [s.id] [s.id])).length
        = (g.nodes.filter
          (fun n => n.id ∈ bfsIds g (g.nodes.length + g.edges.length + 1) [s.id] [s.id])).length := by
      rw [List.filter_map, List.length_map]
      rfl
    have hperm : List.Perm ((g.nodes.map Node.id).filter
          (fun x => x ∈ bfsIds g (g.nodes.length + g.edges.length + 1) [s.id] [s.id]))
        (bfsIds g (g.nodes.length + g.edges.length + 1) [s.id] [s.id]) := by
      apply (List.perm_ext_iff_of_nodup (h2.filter _) o1).mpr
      intro x
      simp only [List.mem_filter, decide_eq_true_eq]
      constructor
      · rintro ⟨_, hx⟩
        exact hx
      · intro hx
        exact ⟨hids_sub x hx, hx⟩
    rw [← hmapf]
    exact hperm.length_eq

theorem hop_graph_counterexample :
    startNodes wHopGraph = [wNodeA] ∧
    wNodeB ∈ wHopGraph.nodes ∧
    RawReach wHopGraph ("A") ("B") ∧
    countVisits (run_workflow wHopGraph).1 = 1 ∧
    Event.log (visitMessage wNodeB) ∉ (run_workflow wHopGraph).1 := by
  refine ⟨by decide, by decide, ?_, by decide, by decide⟩
  exact Relation.ReflTransGen.head ⟨⟨("e1"), ("A"), ("X")⟩, by decide, rfl, rfl⟩
    (Relation.ReflTransGen.single ⟨⟨("e2"), ("X"), ("B")⟩, by decide, rfl, rfl⟩)

theorem run_workflow_visits_reachable_witness :
    ∃ ids : List String,
      run_workflow wChain =
        (ids.map (visitEventOf wChain) ++
          [Event.log ("[INFO] Workflow traversal complete."), Event.finished true], none) ∧
      ids.Nodup ∧
      (∀ u, u ∈ ids ↔ declaredId wChain u = true ∧ Reaches wChain wNodeA.id u) ∧
      countVisits (run_workflow wChain).1 = ids.length ∧
      (wChain.nodes.filter (fun n => n.id ∈ ids)).length = ids.length :=
  run_workflow_visits_reachable wChain wNodeA (by decide) (by decide)

/-! ## C2: validation failure on a start-node count other than one -/

/-- C2: for every non-empty graph whose number of start-node candidates is
not 1, `run_workflow` returns the validation error reporting that count and
emits no event of any kind. -/
theorem run_workflow_validation_error (g : GraphState)
    (h1 : g.nodes ≠ []) (h2 : (startNodes g).length ≠ 1) :
    run_workflow g =
      ([], some ("Workflow must have exactly one start node (a node with no incoming edges). Found "
        ++ toString (startNodes g).length ++ ".")) := by
  unfold run_workflow
  rw [if_neg (by simpa [List.isEmpty_iff] using h1)]
  rcases hs : startNodes g with _ | ⟨s, _ | ⟨t, rest⟩⟩
  · rfl
  · exact absurd (by rw [hs]; rfl) h2
  · rfl

/-- Witness for C2: two isolated nodes give the count-two error and an empty
event sequence. -/
theorem run_workflow_validation_error_witness :
    run_workflow wTwoStarts =
      ([], some ("Workflow must have exactly one start node (a node with no incoming edges). Found "
        ++ toString (startNodes wTwoStarts).length ++ ".")) :=
  run_workflow_validation_error wTwoStarts (by decide) (by decide)

/-! ## C3: the event sequence is a pure function of the graph description -/

/-- C3: `run_workflow` is deterministic — two runs on graph descriptions with
identical node and edge sequences produce identical event sequences and
results.  (In the Rust code the only container iterations are over the
declared `Vec`s; hash maps are used solely for keyed lookup, so the embedding
as a pure function over the declared ordering is faithful.) -/
theorem run_workflow_deterministic (g1 g2 : GraphState)
    (hn : g1.nodes = g2.nodes) (he : g1.edges = g2.edges) :
    run_workflow g1 = run_workflow g2 := by
  obtain ⟨n1, e1⟩ := g1
  obtain ⟨n2, e2⟩ := g2
  cases hn
  cases he
  rfl

/-- Witness for C3 at the two-node chain graph. -/
theorem run_workflow_deterministic_witness :
    run_workflow wChain = run_workflow ⟨[wNodeA, wNodeB], [⟨("e1"), ("A"), ("B")⟩]⟩ :=
  run_workflow_deterministic wChain ⟨[wNodeA, wNodeB], [⟨("e1"), ("A"), ("B")⟩]⟩ rfl rfl

/-! ## C4: the empty workflow emits exactly the info log and the success event -/

/-- C4: on an empty node list `run_workflow` emits exactly two events — the
informational log followed by `ExecutionFinished{success:true}` — contains
zero `Visiting` events, and returns successfully. -/
theorem run_workflow_empty (g : GraphState) (h : g.nodes = []) :
    run_workflow g =
      ([Event.log ("[INFO] Workflow is empty. Nothing to run."), Event.finished true], none) ∧
    countVisits (run_workflow g).1 = 0 := by
  have hrun : run_workflow g =
      ([Event.log ("[INFO] Workflow is empty. Nothing to run."), Event.finished true], none) := by
    unfold run_workflow
    rw [if_pos (by simpa [List.isEmpty_iff] using h)]
  refine ⟨hrun, ?_⟩
  rw [hrun]
  decide

/-- Witness for C4: an empty node list next to a stray edge still produces
exactly the two events. -/
theorem run_workflow_empty_witness :
    run_workflow ⟨[], [⟨("e1"), ("p"), ("q")⟩]⟩ =
      ([Event.log ("[INFO] Workflow is empty. Nothing to run."), Event.finished true], none) ∧
    countVisits (run_workflow ⟨[], [⟨("e1"), ("p"), ("q")⟩]⟩).1 = 0 :=
  run_workflow_empty ⟨[], [⟨("e1"), ("p"), ("q")⟩]⟩ rfl

/-! ## C10: an edge with an undeclared source is dropped from adjacency but
its target still counts as having an incoming edge -/

/-- C10: in the graph with the single node `A` and the single edge `X → A`
(source undeclared), no id has any successor in the adjacency structure, yet
`A` counts as having an incoming edge, so validation fails with count 0 and
no event is emitted. -/
theorem orphan_edge_validation :
    declaredId wOrphanEdgeGraph ("X") = false ∧
    successors wOrphanEdgeGraph ("A") = [] ∧
    successors wOrphanEdgeGraph ("X") = [] ∧
    startNodes wOrphanEdgeGraph = [] ∧
    run_workflow wOrphanEdgeGraph =
      ([], some ("Workflow must have exactly one start node (a node with no incoming edges). Found 0.")) := by
  decide

/-! ## C6: complete() stamps completion and the wall-clock duration -/

/-- C6: under a monotonically increasing clock (the completion instant is not
before the creation instant, and the elapsed milliseconds fit in `u64`),
`complete()` sets status Completed, stamps the completion time, and stores
the non-negative wall-clock delta in `duration_ms`. -/
theorem complete_sets_duration (i : AgentInteraction) (now : Int)
    (hmono : i.created_at ≤ now) (hrange : now - i.created_at < 2 ^ 64) :
    (i.complete now).status = InteractionStatus.Completed ∧
    (i.complete now).completed_at = some now ∧
    (i.complete now).duration_ms = some ((now - i.created_at).toNat) := by
  refine ⟨rfl, rfl, ?_⟩
  show some (((now - i.created_at) % (2 : Int) ^ 64).toNat)
      = some ((now - i.created_at).toNat)
  rw [Int.emod_eq_of_lt (by omega) (by exact_mod_cast hrange)]

/-- Witness for C6: completing the sample interaction (created at 100 ms) at
250 ms yields duration 150 ms. -/
theorem complete_sets_duration_witness :
    (wInteraction.complete 250).status = InteractionStatus.Completed ∧
    (wInteraction.complete 250).completed_at = some 250 ∧
    (wInteraction.complete 250).duration_ms = some ((250 - wInteraction.created_at).toNat) :=
  complete_sets_duration wInteraction 250 (by decide) (by decide)

/-! ## C7: fail() stamps completion, appends the reason, and changes nothing else -/

/-- C7: `fail(reason)` sets status Failed, stamps the completion time, and
appends the reason to the message content; `duration_ms` — set or unset — and
every other field of the interaction are left unchanged. -/
theorem fail_frame (i : AgentInteraction) (reason : String) (now : Int) :
    (i.fail reason now).status = InteractionStatus.Failed ∧
    (i.fail reason now).completed_at = some now ∧
    (i.fail reason now).content.message
      = i.content.message ++ "\n\nError: " ++ reason ∧
    (i.fail reason now).duration_ms = i.duration_ms ∧
    (i.fail reason now).id = i.id ∧
    (i.fail reason now).workflow_id = i.workflow_id ∧
    (i.fail reason now).initiator_agent_id = i.initiator_agent_id ∧
    (i.fail reason now).target_agent_ids = i.target_agent_ids ∧
    (i.fail reason now).interaction_type = i.interaction_type ∧
    (i.fail reason now).priority = i.priority ∧
    (i.fail reason now).content.data = i.content.data ∧
    (i.fail reason now).content.attachments = i.content.attachments ∧
    (i.fail reason now).content.code_blocks = i.content.code_blocks ∧
    (i.fail reason now).related_task_id = i.related_task_id ∧
    (i.fail reason now).parent_interaction_id = i.parent_interaction_id ∧
    (i.fail reason now).created_at = i.created_at :=
  ⟨rfl, rfl, rfl, rfl, rfl, rfl, rfl, rfl, rfl, rfl, rfl, rfl, rfl, rfl, rfl, rfl⟩

/-! ## C8: status-set stamps terminal targets and clears on non-terminal ones -/

/-- Counterexample for C8 as stated: setting the non-terminal status Pending
on a row whose completion timestamp is stored does change it — the UPDATE
writes NULL over the previously stored value. -/
theorem update_status_clears_counterexample :
    wDoneRow.completed_at = some ("T1") ∧
    (update_interaction_status [wDoneRow] ("i1") InteractionStatus.Pending ("T2")).map
        (fun r => r.completed_at) = [none] := by
  decide

/-- C8 (amended): the status-set operation accepts any target status and
rewrites the matching rows unconditionally: a terminal target (Completed,
Failed, Cancelled) stamps the completion timestamp with the clock, while a
non-terminal target (Pending, InProgress) writes the unset value over the
stored completion timestamp, clearing any previously stored one; rows with
other ids are unchanged. -/
theorem update_interaction_status_stamps (table : List InteractionRow) (id : String)
    (st : InteractionStatus) (now : String) :
    ∀ r ∈ update_interaction_status table id st now,
      (r.id = id → r.status = statusJson st ∧
        r.completed_at =
          (if st = InteractionStatus.Completed ∨ st = InteractionStatus.Failed
              ∨ st = InteractionStatus.Cancelled then some now else none)) ∧
      (r.id ≠ id → r ∈ table) := by
  intro r hr
  simp only [update_interaction_status, List.mem_map] at hr
  obtain ⟨a, ha, hra⟩ := hr
  by_cases h : a.id = id
  · rw [if_pos h] at hra
    subst hra
    refine ⟨fun _ => ⟨rfl, ?_⟩, fun hne => absurd h hne⟩
    cases st <;> simp
  · rw [if_neg h] at hra
    subst hra
    exact ⟨fun hid => absurd hid h, fun _ => ha⟩

/-- Witness for C8 (amended): the terminal target Failed stamps the clock
value on the matching stored row. -/
theorem update_interaction_status_stamps_witness :
    wDoneRowFailed ∈ update_interaction_status [wDoneRow] ("i1") InteractionStatus.Failed ("T9") ∧
    wDoneRowFailed.status = statusJson InteractionStatus.Failed := by
  have h := update_interaction_status_stamps [wDoneRow] ("i1")
    InteractionStatus.Failed ("T9") wDoneRowFailed (by decide)
  exact ⟨by decide, (h.1 (by decide)).1⟩

/-! ## C9: built-in roles reject update and delete, leaving the store unchanged -/

/-- C9: when the stored record found for the submitted role's id is flagged
built-in, both `update_role` and `delete_role` fail with the built-in-role
mutation error and return with the stored table unchanged. -/
theorem builtin_role_rejected (table : List RoleRow) (role : RoleRow) (now : String)
    (r : RoleRow) (hfind : table.find? (fun x => x.id = role.id) = some r)
    (hbuilt : r.is_built_in = true) :
    update_role table role now = (table, some ("Cannot modify built-in roles")) ∧
    delete_role table role.id = (table, some ("Cannot delete built-in roles")) := by
  have hs : storedBuiltIn table role.id = true := by
    unfold storedBuiltIn
    rw [hfind]
    simpa using hbuilt
  constructor
  · unfold update_role
    rw [if_pos hs]
  · unfold delete_role
    rw [if_pos hs]

/-- Witness for C9: updating or deleting the stored built-in role `r1` is
rejected with the table intact. -/
theorem builtin_role_rejected_witness :
    update_role [wBuiltInRole] wBuiltInRole ("T5")
      = ([wBuiltInRole], some ("Cannot modify built-in roles")) ∧
    delete_role [wBuiltInRole] wBuiltInRole.id
      = ([wBuiltInRole], some ("Cannot delete built-in roles")) :=
  builtin_role_rejected [wBuiltInRole] wBuiltInRole ("T5") wBuiltInRole (by decide) rfl

end SquadAID
